import Mathlib

/-!
Shallow embedding of `contracts/VoteOblivion.sol` (the Poll Registry of the
VoteOblivion repository) and proofs about its poll lifecycle state machine.

Encrypted `euint32` handles are modelled by their underlying plaintext value
(a natural number kept below `2^32` by the arithmetic operations) together
with a flag recording whether the handle has been marked publicly
decryptable.  The external FHE capability calls that can reject
(`FHE.fromExternal` input decoding in `vote`, `FHE.checkSignatures` in
`publishResults`) are modelled as oracles: an `Option Nat` decode result,
and a boolean-valued signature-check function applied to the poll's tally
handles, the cleartext payload and the proof.  `block.timestamp`,
`msg.sender` and `block.chainid` are explicit parameters of each call.
-/

namespace VoteOblivion

/-- Modulus of the 32-bit encrypted counters (`euint32`). -/
def U32 : Nat := 2 ^ 32

/-- Model of an `euint32` ciphertext handle: underlying plaintext value plus
whether the handle has been marked publicly decryptable. -/
structure Ciph where
  val : Nat
  pubDecryptable : Bool
deriving Repr, DecidableEq

namespace FHE

/-- `FHE.asEuint32`: trivial encryption of a constant; a fresh handle. -/
def asEuint32 (v : Nat) : Ciph := ⟨v % U32, false⟩

/-- `FHE.add`: homomorphic wrapping 32-bit addition; a fresh handle. -/
def add (a b : Ciph) : Ciph := ⟨(a.val + b.val) % U32, false⟩

/-- `FHE.eq`: encrypted equality compare, modelled by its underlying boolean. -/
def eq (a b : Ciph) : Bool := a.val == b.val

/-- `FHE.select`: encrypted conditional select. -/
def select (c : Bool) (a b : Ciph) : Ciph := if c then a else b

/-- `FHE.makePubliclyDecryptable`: marks the handle publicly decryptable. -/
def makePubliclyDecryptable (a : Ciph) : Ciph := ⟨a.val, true⟩

end FHE

/-- The `Poll` struct (contracts/VoteOblivion.sol, lines 14-23). -/
structure Poll where
  name : String
  options : List String
  startTime : Nat
  endTime : Nat
  finalized : Bool
  resultsPublished : Bool
  clearResults : List Nat
  tallies : List Ciph
deriving Repr, DecidableEq

/-- The all-zero storage slot a Solidity `mapping(uint256 => Poll)` yields for
an untouched key: empty strings and arrays, zero timestamps, false flags. -/
def Poll.empty : Poll := ⟨"", [], 0, 0, false, false, [], []⟩

/-- The contract's error conditions. `ExternalRevert` stands for a revert
raised inside an external FHE capability call (`FHE.fromExternal` on a bad
input proof, `FHE.checkSignatures` on a bad signature). -/
inductive Err where
  | PollNotFound (pollId : Nat)
  | EmptyName
  | InvalidSchedule
  | InvalidOptionCount
  | PollAlreadyFinalized (pollId : Nat)
  | PollNotFinalized (pollId : Nat)
  | PollStillActive (pollId : Nat)
  | PollAlreadyPublished (pollId : Nat)
  | AddressAlreadyVoted (pollId : Nat) (voter : Nat)
  | PollNotActive (pollId : Nat)
  | ExternalRevert
deriving Repr, DecidableEq

/-- The contract's events. Voter addresses are modelled as naturals. -/
inductive Event where
  | PollCreated (pollId : Nat) (name : String) (options : List String)
      (startTime endTime : Nat)
  | VoteCast (pollId : Nat) (voter : Nat)
  | PollFinalized (pollId : Nat)
  | ResultsPublished (pollId : Nat) (results : List Nat)
deriving Repr, DecidableEq

/-- The registry's storage: `_pollCount`, the `_polls` mapping, the
`_hasVoted` double mapping, plus the emitted event log. -/
structure ContractState where
  pollCount : Nat
  polls : Nat → Poll
  hasVoted : Nat → Nat → Bool
  events : List Event

/-- The state of a freshly deployed contract. -/
def initState : ContractState :=
  { pollCount := 0, polls := fun _ => Poll.empty
    hasVoted := fun _ _ => false, events := [] }

/-- `totalPolls()` (lines 48-50). -/
def totalPolls (s : ContractState) : Nat := s.pollCount

/-- `createPoll` (lines 59-90). `now` is `block.timestamp`. Returns the new
state and the allocated `pollId`. Field assignment and array `push` act on
whatever is in the storage slot `_polls[pollId]`, as in Solidity. -/
def createPoll (s : ContractState) (now : Nat) (name : String)
    (options : List String) (startTime endTime : Nat) :
    Except Err (ContractState × Nat) :=
  if name = "" then .error .EmptyName
  else if options.length < 2 ∨ 4 < options.length then .error .InvalidOptionCount
  else if endTime ≤ startTime ∨ endTime ≤ now then .error .InvalidSchedule
  else
    .ok ({ s with
            pollCount := s.pollCount + 1
            polls := fun j =>
              if j = s.pollCount then
                { s.polls s.pollCount with
                    name := name
                    startTime := startTime
                    endTime := endTime
                    options := (s.polls s.pollCount).options ++ options
                    tallies := (s.polls s.pollCount).tallies ++
                      options.map (fun _ => FHE.asEuint32 0) }
              else s.polls j
            events := s.events ++
              [.PollCreated s.pollCount name options startTime endTime] },
         s.pollCount)

/-- The tally loop of `vote` (lines 115-121), unrolled from option index `i`:
`tallies[i] = FHE.add(tallies[i], FHE.select(FHE.eq(choice, i), 1, 0))`. -/
def bumpTallies (choice : Ciph) (i : Nat) : List Ciph → List Ciph
  | [] => []
  | t :: ts =>
      FHE.add t (FHE.select (FHE.eq choice (FHE.asEuint32 i))
          (FHE.asEuint32 1) (FHE.asEuint32 0))
        :: bumpTallies choice (i + 1) ts

/-- `vote` (lines 98-126). `decodedChoice` is the outcome of
`FHE.fromExternal(encryptedChoice, inputProof)`: `none` when the external
capability rejects the input proof, `some c` when the handle decodes to the
32-bit value `c`. -/
def vote (s : ContractState) (now sender pollId : Nat)
    (decodedChoice : Option Nat) : Except Err ContractState :=
  if s.pollCount ≤ pollId then .error (.PollNotFound pollId)
  else if now < (s.polls pollId).startTime ∨ (s.polls pollId).endTime ≤ now then
    .error (.PollNotActive pollId)
  else if s.hasVoted pollId sender then
    .error (.AddressAlreadyVoted pollId sender)
  else
    match decodedChoice with
    | none => .error .ExternalRevert
    | some c =>
        .ok { s with
               polls := fun j =>
                 if j = pollId then
                   { s.polls pollId with
                       tallies :=
                         bumpTallies (FHE.asEuint32 c) 0 (s.polls pollId).tallies }
                 else s.polls j
               hasVoted := fun p a =>
                 if p = pollId ∧ a = sender then true else s.hasVoted p a
               events := s.events ++ [.VoteCast pollId sender] }

/-- `finalizePoll` (lines 131-146). -/
def finalizePoll (s : ContractState) (now pollId : Nat) :
    Except Err ContractState :=
  if s.pollCount ≤ pollId then .error (.PollNotFound pollId)
  else if now < (s.polls pollId).endTime then .error (.PollStillActive pollId)
  else if (s.polls pollId).finalized then .error (.PollAlreadyFinalized pollId)
  else
    .ok { s with
           polls := fun j =>
             if j = pollId then
               { s.polls pollId with
                   tallies := (s.polls pollId).tallies.map FHE.makePubliclyDecryptable
                   finalized := true }
             else s.polls j
           events := s.events ++ [.PollFinalized pollId] }

/-- `publishResults` (lines 154-189). `chainid` is `block.chainid`;
`checkSig` is the external `FHE.checkSignatures` capability applied to the
poll's tally handles, the cleartext results and the decryption proof, and
`false` means it reverts. `delete` followed by `push`-ing every submitted
entry replaces `clearResults` with the submitted vector. -/
def publishResults (s : ContractState) (chainid pollId : Nat)
    (clearResults : List Nat) (decryptionProof : List Nat)
    (checkSig : List Ciph → List Nat → List Nat → Bool) :
    Except Err ContractState :=
  if s.pollCount ≤ pollId then .error (.PollNotFound pollId)
  else if (s.polls pollId).finalized = false then .error (.PollNotFinalized pollId)
  else if (s.polls pollId).resultsPublished then .error (.PollAlreadyPublished pollId)
  else if clearResults.length ≠ (s.polls pollId).tallies.length then
    .error .InvalidOptionCount
  else if !(chainid == 31337 && decryptionProof.length == 0) &&
      !(checkSig (s.polls pollId).tallies clearResults decryptionProof) then
    .error .ExternalRevert
  else
    .ok { s with
           polls := fun j =>
             if j = pollId then
               { s.polls pollId with
                   clearResults := clearResults
                   resultsPublished := true }
             else s.polls j
           events := s.events ++ [.ResultsPublished pollId clearResults] }

/-- `getPublicResults` (lines 231-234). -/
def getPublicResults (s : ContractState) (pollId : Nat) :
    Except Err (List Nat) :=
  if s.pollCount ≤ pollId then .error (.PollNotFound pollId)
  else .ok (s.polls pollId).clearResults

/-- `hasAddressVoted` (lines 239-244). -/
def hasAddressVoted (s : ContractState) (pollId account : Nat) : Bool :=
  if s.pollCount ≤ pollId then false else s.hasVoted pollId account

/-- A state-changing call to the registry, with its environment
(`block.timestamp`, `msg.sender`, `block.chainid`, oracle outcomes). -/
inductive Op where
  | create (now : Nat) (name : String) (options : List String)
      (startTime endTime : Nat)
  | vote (now sender pollId : Nat) (decodedChoice : Option Nat)
  | finalize (now pollId : Nat)
  | publish (chainid pollId : Nat) (clearResults : List Nat)
      (decryptionProof : List Nat)
      (checkSig : List Ciph → List Nat → List Nat → Bool)

/-- Outcome of one call on a state. -/
def applyOp (s : ContractState) : Op → Except Err ContractState
  | .create now name options startTime endTime =>
      (createPoll s now name options startTime endTime).map (fun r => r.1)
  | .vote now sender pollId c => vote s now sender pollId c
  | .finalize now pollId => finalizePoll s now pollId
  | .publish chainid pollId cr proof checkSig =>
      publishResults s chainid pollId cr proof checkSig

/-- Transactional (EVM) semantics: a call that reverts leaves the storage
exactly as it was. -/
def step (s : ContractState) (op : Op) : ContractState :=
  match applyOp s op with
  | .ok s2 => s2
  | .error _ => s

/-- State reached from a fresh deployment by a sequence of calls. -/
def execList (ops : List Op) : ContractState := ops.foldl step initState

/-- Underlying value of tally `i` of a poll (0 when out of range). -/
def tallyVal (p : Poll) (i : Nat) : Nat := (p.tallies.getD i (FHE.asEuint32 0)).val

lemma bumpTallies_length (choice : Ciph) :
    ∀ (ts : List Ciph) (i : Nat), (bumpTallies choice i ts).length = ts.length := by
  intro ts
  induction ts with
  | nil => intro i; rfl
  | cons t ts ih => intro i; simp [bumpTallies, ih]

lemma bumpTallies_getD (choice : Ciph) (d : Ciph) :
    ∀ (ts : List Ciph) (i j : Nat), j < ts.length →
      (bumpTallies choice i ts).getD j d =
        FHE.add (ts.getD j d)
          (FHE.select (FHE.eq choice (FHE.asEuint32 (i + j)))
            (FHE.asEuint32 1) (FHE.asEuint32 0)) := by
  intro ts
  induction ts with
  | nil => intro i j h; simp at h
  | cons t ts ih =>
      intro i j h
      cases j with
      | zero =>
          rw [bumpTallies, List.getD_cons_zero, List.getD_cons_zero, Nat.add_zero]
      | succ j =>
          have hj : j < ts.length := by simpa using h
          have h2 := ih (i + 1) j hj
          have h3 : i + 1 + j = i + (j + 1) := by omega
          rw [bumpTallies, List.getD_cons_succ, List.getD_cons_succ, h2, h3]

/-- The state produced by a successful `vote` call. -/
def voteState (s : ContractState) (sender pollId c : Nat) : ContractState :=
  { s with
     polls := fun j =>
       if j = pollId then
         { s.polls pollId with
             tallies := bumpTallies (FHE.asEuint32 c) 0 (s.polls pollId).tallies }
       else s.polls j
     hasVoted := fun p a =>
       if p = pollId ∧ a = sender then true else s.hasVoted p a
     events := s.events ++ [.VoteCast pollId sender] }

lemma voteState_polls_self (s : ContractState) (sender pollId c : Nat) :
    (voteState s sender pollId c).polls pollId =
      { s.polls pollId with
          tallies := bumpTallies (FHE.asEuint32 c) 0 (s.polls pollId).tallies } := by
  unfold voteState
  exact if_pos rfl

lemma voteState_polls_other (s : ContractState) (sender pollId c j : Nat)
    (hj : j ≠ pollId) :
    (voteState s sender pollId c).polls j = s.polls j := by
  unfold voteState
  exact if_neg hj

lemma vote_ok_elim (s s' : ContractState) (now sender pollId c : Nat)
    (hok : vote s now sender pollId (some c) = .ok s') :
    pollId < s.pollCount ∧
    (s.polls pollId).startTime ≤ now ∧ now < (s.polls pollId).endTime ∧
    s.hasVoted pollId sender = false ∧
    s' = voteState s sender pollId c := by
  by_cases h1 : s.pollCount ≤ pollId
  · rw [vote, if_pos h1] at hok
    exact absurd hok (by simp)
  · by_cases h2 : now < (s.polls pollId).startTime ∨ (s.polls pollId).endTime ≤ now
    · rw [vote, if_neg h1, if_pos h2] at hok
      exact absurd hok (by simp)
    · by_cases h3 : s.hasVoted pollId sender = true
      · rw [vote, if_neg h1, if_neg h2, if_pos h3] at hok
        exact absurd hok (by simp)
      · rw [vote, if_neg h1, if_neg h2, if_neg h3] at hok
        rw [not_or, not_lt, not_le] at h2
        refine ⟨by omega, h2.1, h2.2, by simpa using h3, ?_⟩
        have h5 : Except.ok (ε := Err) (voteState s sender pollId c) = .ok s' := hok
        injection h5 with h5
        exact h5.symm

lemma vote_ok_intro (s : ContractState) (now sender pollId c : Nat)
    (hpid : pollId < s.pollCount)
    (hstart : (s.polls pollId).startTime ≤ now)
    (hend : now < (s.polls pollId).endTime)
    (hnv : s.hasVoted pollId sender = false) :
    vote s now sender pollId (some c) = .ok (voteState s sender pollId c) := by
  rw [vote, if_neg (by omega), if_neg (by rw [not_or]; constructor <;> omega),
    if_neg (by simp [hnv])]
  rfl

lemma one_lt_U32 : 1 < U32 := by norm_num [U32]

lemma tallyVal_voteState (s : ContractState) (sender pollId c i : Nat)
    (hc : c < U32)
    (hlen : (s.polls pollId).tallies.length ≤ U32)
    (hi : i < (s.polls pollId).tallies.length) :
    tallyVal ((voteState s sender pollId c).polls pollId) i =
      (tallyVal (s.polls pollId) i + (if c = i then 1 else 0)) % U32 := by
  have hiU : i < U32 := lt_of_lt_of_le hi hlen
  rw [voteState_polls_self]
  unfold tallyVal
  rw [show ({ s.polls pollId with
      tallies := bumpTallies (FHE.asEuint32 c) 0 (s.polls pollId).tallies } : Poll).tallies
      = bumpTallies (FHE.asEuint32 c) 0 (s.polls pollId).tallies from rfl]
  rw [bumpTallies_getD (FHE.asEuint32 c) (FHE.asEuint32 0) _ 0 i hi, Nat.zero_add]
  unfold FHE.add FHE.select FHE.eq FHE.asEuint32
  simp only [Nat.mod_eq_of_lt hc, Nat.mod_eq_of_lt hiU]
  by_cases hci : c = i
  · simp [hci, Nat.mod_eq_of_lt one_lt_U32]
  · simp [hci]

/-- C1: a successful `vote` whose encrypted choice decrypts to `c` adds,
via the encrypted compare-and-select loop `bumpTallies` (the embedding of
lines 115-121, which uses `FHE.eq` and `FHE.select`, never a plaintext
branch on `c`), exactly 1 to the underlying value of `tallies[i]` when
`c = i` and 0 otherwise, for every option index `i`; all other poll fields
are unchanged, other polls and the poll count are unchanged, and the caller
is recorded in the participation set. The bound `hbound` excludes 32-bit
wrap-around of an accumulator. -/
theorem vote_tallies_spec (s s' : ContractState) (now sender pollId c : Nat)
    (hc : c < U32)
    (hlen : (s.polls pollId).tallies.length ≤ U32)
    (hbound : ∀ i, i < (s.polls pollId).tallies.length →
        tallyVal (s.polls pollId) i + 1 < U32)
    (hok : vote s now sender pollId (some c) = .ok s') :
    (∀ i, i < (s.polls pollId).tallies.length →
        tallyVal (s'.polls pollId) i =
          tallyVal (s.polls pollId) i + (if c = i then 1 else 0)) ∧
    (s'.polls pollId).name = (s.polls pollId).name ∧
    (s'.polls pollId).options = (s.polls pollId).options ∧
    (s'.polls pollId).startTime = (s.polls pollId).startTime ∧
    (s'.polls pollId).endTime = (s.polls pollId).endTime ∧
    (s'.polls pollId).finalized = (s.polls pollId).finalized ∧
    (s'.polls pollId).resultsPublished = (s.polls pollId).resultsPublished ∧
    (s'.polls pollId).clearResults = (s.polls pollId).clearResults ∧
    s'.hasVoted pollId sender = true ∧
    (∀ p a, ¬(p = pollId ∧ a = sender) → s'.hasVoted p a = s.hasVoted p a) ∧
    (∀ j, j ≠ pollId → s'.polls j = s.polls j) ∧
    s'.pollCount = s.pollCount := by
  obtain ⟨hpid, hstart, hend, hnv, hs'⟩ := vote_ok_elim s s' now sender pollId c hok
  subst hs'
  refine ⟨?_, ?_, ?_, ?_, ?_, ?_, ?_, ?_, ?_, ?_, ?_, ?_⟩
  · intro i hi
    rw [tallyVal_voteState s sender pollId c i hc hlen hi]
    have hb := hbound i hi
    have hlt : tallyVal (s.polls pollId) i + (if c = i then 1 else 0) < U32 := by
      by_cases hci : c = i <;> simp [hci] <;> omega
    exact Nat.mod_eq_of_lt hlt
  · rw [voteState_polls_self]
  · rw [voteState_polls_self]
  · rw [voteState_polls_self]
  · rw [voteState_polls_self]
  · rw [voteState_polls_self]
  · rw [voteState_polls_self]
  · rw [voteState_polls_self]
  · unfold voteState
    exact if_pos ⟨rfl, rfl⟩
  · intro p a hpa
    unfold voteState
    exact if_neg hpa
  · intro j hj
    exact voteState_polls_other s sender pollId c j hj
  · rfl

/-- A concrete two-option poll used to instantiate theorems. -/
def exPoll : Poll :=
  { name := "Weekly poll", options := ["Alice", "Bob"], startTime := 5
    endTime := 65, finalized := false, resultsPublished := false
    clearResults := [], tallies := [⟨0, false⟩, ⟨0, false⟩] }

/-- A concrete registry state holding `exPoll` as poll 0. -/
def exState : ContractState :=
  { pollCount := 1
    polls := fun j => if j = 0 then exPoll else Poll.empty
    hasVoted := fun _ _ => false
    events := [] }

/-- Witness for `vote_tallies_spec` at a concrete input. -/
theorem vote_tallies_spec_witness :
    tallyVal ((voteState exState 7 0 0).polls 0) 0 =
      tallyVal (exState.polls 0) 0 + 1 := by
  have h := vote_tallies_spec exState (voteState exState 7 0 0) 10 7 0 0
    (by norm_num [U32])
    (by norm_num [U32, exState, exPoll])
    (by
      intro i hi
      rcases i with _ | _ | i
      · decide
      · decide
      · simp [exState, exPoll] at hi
        omega)
    rfl
  simpa using h.1 0 (by norm_num [exState, exPoll])

/-- C10: a `vote` call that passes all guards and whose encrypted choice
decrypts to an out-of-range value `c` (at least the number of options)
succeeds: every per-option equality indicator is 0, so no tally's underlying
value changes, yet the caller is recorded in the participation set and the
`VoteCast` event is emitted. -/
theorem vote_out_of_range_spec (s : ContractState) (now sender pollId c : Nat)
    (hpid : pollId < s.pollCount)
    (hstart : (s.polls pollId).startTime ≤ now)
    (hend : now < (s.polls pollId).endTime)
    (hnv : s.hasVoted pollId sender = false)
    (hc : c < U32)
    (hcn : (s.polls pollId).tallies.length ≤ c)
    (hvals : ∀ i, i < (s.polls pollId).tallies.length →
        tallyVal (s.polls pollId) i < U32) :
    ∃ s', vote s now sender pollId (some c) = .ok s' ∧
      (∀ i, i < (s.polls pollId).tallies.length →
          tallyVal (s'.polls pollId) i = tallyVal (s.polls pollId) i) ∧
      s'.hasVoted pollId sender = true ∧
      s'.events = s.events ++ [Event.VoteCast pollId sender] := by
  refine ⟨voteState s sender pollId c,
    vote_ok_intro s now sender pollId c hpid hstart hend hnv, ?_, ?_, rfl⟩
  · intro i hi
    have hlen : (s.polls pollId).tallies.length ≤ U32 :=
      le_of_lt (lt_of_le_of_lt hcn hc)
    rw [tallyVal_voteState s sender pollId c i hc hlen hi]
    have hci : ¬c = i := by omega
    rw [if_neg hci, Nat.add_zero]
    exact Nat.mod_eq_of_lt (hvals i hi)
  · unfold voteState
    exact if_pos ⟨rfl, rfl⟩

/-- Witness for `vote_out_of_range_spec` at a concrete input: choice 5 on a
two-option poll. -/
theorem vote_out_of_range_spec_witness :
    ∃ s', vote exState 10 7 0 (some 5) = .ok s' ∧
      (∀ i, i < (exState.polls 0).tallies.length →
          tallyVal (s'.polls 0) i = tallyVal (exState.polls 0) i) ∧
      s'.hasVoted 0 7 = true ∧
      s'.events = exState.events ++ [Event.VoteCast 0 7] :=
  vote_out_of_range_spec exState 10 7 0 5
    (by decide) (by decide) (by decide) (by decide)
    (by norm_num [U32])
    (by decide)
    (by
      intro i hi
      rcases i with _ | _ | i
      · norm_num [U32, tallyVal, exState, exPoll]
      · norm_num [U32, tallyVal, exState, exPoll]
      · simp [exState, exPoll] at hi
        omega)

/-- The state produced by a successful `createPoll` call. -/
def createdState (s : ContractState) (name : String) (options : List String)
    (startTime endTime : Nat) : ContractState :=
  { s with
      pollCount := s.pollCount + 1
      polls := fun j =>
        if j = s.pollCount then
          { s.polls s.pollCount with
              name := name
              startTime := startTime
              endTime := endTime
              options := (s.polls s.pollCount).options ++ options
              tallies := (s.polls s.pollCount).tallies ++
                options.map (fun _ => FHE.asEuint32 0) }
        else s.polls j
      events := s.events ++ [.PollCreated s.pollCount name options startTime endTime] }

lemma createPoll_ok_intro (s : ContractState) (now : Nat) (name : String)
    (options : List String) (startTime endTime : Nat)
    (hname : name ≠ "")
    (h2 : 2 ≤ options.length) (h4 : options.length ≤ 4)
    (hsched : startTime < endTime) (hfut : now < endTime) :
    createPoll s now name options startTime endTime =
      .ok (createdState s name options startTime endTime, s.pollCount) := by
  rw [createPoll, if_neg hname, if_neg (by rw [not_or]; constructor <;> omega),
    if_neg (by rw [not_or]; constructor <;> omega)]
  rfl

/-- C2: `createPoll` rejects with `EmptyName` exactly on an empty name;
with `InvalidOptionCount` exactly when the name check passes but the option
count is outside `[2, 4]`; with `InvalidSchedule` exactly when the earlier
checks pass but `endTime ≤ startTime` or `endTime ≤ now` (the guards run in
source order, so each error condition is relative to the earlier guards
passing); an accepted call returns the previous `totalPolls` as the new
dense poll id, increments the count by one, stores name, options and window
exactly as given with one encrypted-zero tally per option, `finalized` and
`resultsPublished` false and empty `clearResults`, and leaves every other
poll untouched. `hslot` says the new poll's storage slot is still untouched,
which holds in every reachable state. -/
theorem createPoll_spec (s : ContractState) (now : Nat) (name : String)
    (options : List String) (startTime endTime : Nat)
    (hslot : s.polls s.pollCount = Poll.empty) :
    (createPoll s now name options startTime endTime = .error .EmptyName ↔
      name = "") ∧
    (createPoll s now name options startTime endTime = .error .InvalidOptionCount ↔
      (name ≠ "" ∧ (options.length < 2 ∨ 4 < options.length))) ∧
    (createPoll s now name options startTime endTime = .error .InvalidSchedule ↔
      (name ≠ "" ∧ 2 ≤ options.length ∧ options.length ≤ 4 ∧
        (endTime ≤ startTime ∨ endTime ≤ now))) ∧
    (name ≠ "" → 2 ≤ options.length → options.length ≤ 4 →
      startTime < endTime → now < endTime →
      ∃ s', createPoll s now name options startTime endTime = .ok (s', s.pollCount) ∧
        totalPolls s' = totalPolls s + 1 ∧
        (s'.polls s.pollCount).name = name ∧
        (s'.polls s.pollCount).options = options ∧
        (s'.polls s.pollCount).startTime = startTime ∧
        (s'.polls s.pollCount).endTime = endTime ∧
        (s'.polls s.pollCount).finalized = false ∧
        (s'.polls s.pollCount).resultsPublished = false ∧
        (s'.polls s.pollCount).clearResults = [] ∧
        (s'.polls s.pollCount).tallies = options.map (fun _ => FHE.asEuint32 0) ∧
        (s'.polls s.pollCount).tallies.length = options.length ∧
        (∀ t, t ∈ (s'.polls s.pollCount).tallies → t.val = 0) ∧
        (∀ j, j ≠ s.pollCount → s'.polls j = s.polls j)) := by
  refine ⟨?_, ?_, ?_, ?_⟩
  · constructor
    · intro h
      by_contra hname
      by_cases hcnt : options.length < 2 ∨ 4 < options.length
      · rw [createPoll, if_neg hname, if_pos hcnt] at h
        exact absurd h (by simp)
      · by_cases hsch : endTime ≤ startTime ∨ endTime ≤ now
        · rw [createPoll, if_neg hname, if_neg hcnt, if_pos hsch] at h
          exact absurd h (by simp)
        · rw [createPoll, if_neg hname, if_neg hcnt, if_neg hsch] at h
          exact absurd h (by simp)
    · intro h
      rw [createPoll, if_pos h]
  · constructor
    · intro h
      by_cases hname : name = ""
      · rw [createPoll, if_pos hname] at h
        exact absurd h (by simp)
      · refine ⟨hname, ?_⟩
        by_contra hcnt
        by_cases hsch : endTime ≤ startTime ∨ endTime ≤ now
        · rw [createPoll, if_neg hname, if_neg hcnt, if_pos hsch] at h
          exact absurd h (by simp)
        · rw [createPoll, if_neg hname, if_neg hcnt, if_neg hsch] at h
          exact absurd h (by simp)
    · intro h
      rw [createPoll, if_neg h.1, if_pos h.2]
  · constructor
    · intro h
      by_cases hname : name = ""
      · rw [createPoll, if_pos hname] at h
        exact absurd h (by simp)
      · by_cases hcnt : options.length < 2 ∨ 4 < options.length
        · rw [createPoll, if_neg hname, if_pos hcnt] at h
          exact absurd h (by simp)
        · by_cases hsch : endTime ≤ startTime ∨ endTime ≤ now
          · rw [not_or] at hcnt
            exact ⟨hname, by omega, by omega, hsch⟩
          · rw [createPoll, if_neg hname, if_neg hcnt, if_neg hsch] at h
            exact absurd h (by simp)
    · intro h
      rw [createPoll, if_neg h.1, if_neg (by rw [not_or]; omega), if_pos h.2.2.2]
  · intro hname h2 h4 hsched hfut
    refine ⟨createdState s name options startTime endTime,
      createPoll_ok_intro s now name options startTime endTime hname h2 h4 hsched hfut,
      rfl, ?_⟩
    have hself : (createdState s name options startTime endTime).polls s.pollCount =
        { s.polls s.pollCount with
            name := name
            startTime := startTime
            endTime := endTime
            options := (s.polls s.pollCount).options ++ options
            tallies := (s.polls s.pollCount).tallies ++
              options.map (fun _ => FHE.asEuint32 0) } := by
      unfold createdState
      exact if_pos rfl
    rw [hself, hslot]
    refine ⟨rfl, by simp [Poll.empty], rfl, rfl, rfl, rfl, rfl, by simp [Poll.empty], ?_, ?_, ?_⟩
    · simp [Poll.empty]
    · intro t ht
      simp only [Poll.empty, List.nil_append, List.mem_map] at ht
      obtain ⟨o, _, rfl⟩ := ht
      simp [FHE.asEuint32]
    · intro j hj
      unfold createdState
      exact if_neg hj

/-- Witness for `createPoll_spec` at a concrete input. -/
theorem createPoll_spec_witness :
    ∃ s', createPoll initState 0 "Weekly poll" ["Alice", "Bob"] 5 65 = .ok (s', 0) ∧
      totalPolls s' = totalPolls initState + 1 ∧
      (s'.polls 0).name = "Weekly poll" ∧
      (s'.polls 0).options = ["Alice", "Bob"] ∧
      (s'.polls 0).startTime = 5 ∧
      (s'.polls 0).endTime = 65 ∧
      (s'.polls 0).finalized = false ∧
      (s'.polls 0).resultsPublished = false ∧
      (s'.polls 0).clearResults = [] ∧
      (s'.polls 0).tallies = ["Alice", "Bob"].map (fun _ => FHE.asEuint32 0) ∧
      (s'.polls 0).tallies.length = (["Alice", "Bob"] : List String).length ∧
      (∀ t, t ∈ (s'.polls 0).tallies → t.val = 0) ∧
      (∀ j, j ≠ 0 → s'.polls j = initState.polls j) :=
  (createPoll_spec initState 0 "Weekly poll" ["Alice", "Bob"] 5 65 rfl).2.2.2
    (by decide) (by decide) (by decide) (by decide) (by decide)

lemma vote_cases (s : ContractState) (now sender pollId : Nat) (dec : Option Nat) :
    (s.pollCount ≤ pollId ∧
      vote s now sender pollId dec = .error (.PollNotFound pollId)) ∨
    (pollId < s.pollCount ∧
      (now < (s.polls pollId).startTime ∨ (s.polls pollId).endTime ≤ now) ∧
      vote s now sender pollId dec = .error (.PollNotActive pollId)) ∨
    (pollId < s.pollCount ∧ (s.polls pollId).startTime ≤ now ∧
      now < (s.polls pollId).endTime ∧ s.hasVoted pollId sender = true ∧
      vote s now sender pollId dec = .error (.AddressAlreadyVoted pollId sender)) ∨
    (pollId < s.pollCount ∧ (s.polls pollId).startTime ≤ now ∧
      now < (s.polls pollId).endTime ∧ s.hasVoted pollId sender = false ∧
      dec = none ∧ vote s now sender pollId dec = .error .ExternalRevert) ∨
    (∃ c, pollId < s.pollCount ∧ (s.polls pollId).startTime ≤ now ∧
      now < (s.polls pollId).endTime ∧ s.hasVoted pollId sender = false ∧
      dec = some c ∧
      vote s now sender pollId dec = .ok (voteState s sender pollId c)) := by
  by_cases h1 : s.pollCount ≤ pollId
  · exact Or.inl ⟨h1, by rw [vote.eq_def, if_pos h1]⟩
  · by_cases h2 : now < (s.polls pollId).startTime ∨ (s.polls pollId).endTime ≤ now
    · exact Or.inr (Or.inl ⟨by omega, h2, by rw [vote.eq_def, if_neg h1, if_pos h2]⟩)
    · have h2' := h2
      rw [not_or, not_lt, not_le] at h2'
      by_cases h3 : s.hasVoted pollId sender = true
      · exact Or.inr (Or.inr (Or.inl ⟨by omega, h2'.1, h2'.2, h3,
          by rw [vote.eq_def, if_neg h1, if_neg h2, if_pos h3]⟩))
      · have h3' : s.hasVoted pollId sender = false := by simpa using h3
        cases dec with
        | none =>
            refine Or.inr (Or.inr (Or.inr (Or.inl
              ⟨by omega, h2'.1, h2'.2, h3', rfl, ?_⟩)))
            rw [vote.eq_def, if_neg h1, if_neg h2, if_neg h3]
        | some c =>
            exact Or.inr (Or.inr (Or.inr (Or.inr ⟨c, by omega, h2'.1, h2'.2, h3',
              rfl, vote_ok_intro s now sender pollId c (by omega) h2'.1 h2'.2 h3'⟩)))

/-- Counterexample to C3 as stated: on a poll that exists, inside the voting
window, with a caller who has not voted, a `vote` call whose encrypted input
fails external proof decoding still rejects — so passing the three guards
does not suffice for success. -/
theorem vote_guards_counterexample :
    0 < exState.pollCount ∧ (exState.polls 0).startTime ≤ 10 ∧
    10 < (exState.polls 0).endTime ∧ exState.hasVoted 0 7 = false ∧
    vote exState 10 7 0 none = .error .ExternalRevert :=
  ⟨by decide, by decide, by decide, rfl, rfl⟩

/-- C3 (amended): `vote` rejects with `PollNotFound` iff `pollId` is beyond
`totalPolls`; otherwise with `PollNotActive` iff the time is outside
`[startTime, endTime)`; otherwise with `AddressAlreadyVoted` iff the caller
is already in the participation set; a second `vote` by the same identity
after a successful one always rejects, whatever the new choice; and a call
passing all three guards succeeds when the external input-proof decoding
accepts, while it rejects with the decoding failure when it does not. -/
theorem vote_guards_spec (s : ContractState) (now sender pollId : Nat)
    (dec : Option Nat) :
    (vote s now sender pollId dec = .error (.PollNotFound pollId) ↔
      s.pollCount ≤ pollId) ∧
    (pollId < s.pollCount →
      (vote s now sender pollId dec = .error (.PollNotActive pollId) ↔
        (now < (s.polls pollId).startTime ∨ (s.polls pollId).endTime ≤ now))) ∧
    (pollId < s.pollCount → (s.polls pollId).startTime ≤ now →
      now < (s.polls pollId).endTime →
      (vote s now sender pollId dec = .error (.AddressAlreadyVoted pollId sender) ↔
        s.hasVoted pollId sender = true)) ∧
    (∀ s', vote s now sender pollId dec = .ok s' →
      ∀ now2 dec2, ∃ e, vote s' now2 sender pollId dec2 = .error e) ∧
    (pollId < s.pollCount → (s.polls pollId).startTime ≤ now →
      now < (s.polls pollId).endTime → s.hasVoted pollId sender = false →
      (∀ c, dec = some c → ∃ s2, vote s now sender pollId dec = .ok s2) ∧
      (dec = none → vote s now sender pollId dec = .error .ExternalRevert)) := by
  refine ⟨?_, ?_, ?_, ?_, ?_⟩
  · constructor
    · intro h
      rcases vote_cases s now sender pollId dec with
        ⟨h1, _⟩ | ⟨_, _, he⟩ | ⟨_, _, _, _, he⟩ | ⟨_, _, _, _, _, he⟩ |
        ⟨c, _, _, _, _, _, he⟩ <;>
        first
          | exact h1
          | (rw [he] at h; exact absurd h (by simp))
    · intro h
      rw [vote.eq_def, if_pos h]
  · intro hpid
    constructor
    · intro h
      rcases vote_cases s now sender pollId dec with
        ⟨h1, _⟩ | ⟨_, hw, _⟩ | ⟨_, _, _, _, he⟩ | ⟨_, _, _, _, _, he⟩ |
        ⟨c, _, _, _, _, _, he⟩ <;>
        first
          | omega
          | exact hw
          | (rw [he] at h; exact absurd h (by simp))
    · intro h
      rw [vote.eq_def, if_neg (by omega), if_pos h]
  · intro hpid hstart hend
    constructor
    · intro h
      rcases vote_cases s now sender pollId dec with
        ⟨h1, _⟩ | ⟨_, hw, _⟩ | ⟨_, _, _, hv, _⟩ | ⟨_, _, _, _, _, he⟩ |
        ⟨c, _, _, _, _, _, he⟩ <;>
        first
          | omega
          | exact hv
          | (rw [he] at h; exact absurd h (by simp))
    · intro h
      rw [vote.eq_def, if_neg (by omega),
        if_neg (not_or.mpr ⟨not_lt.mpr hstart, not_le.mpr hend⟩), if_pos h]
  · intro s' hok now2 dec2
    rcases vote_cases s now sender pollId dec with
      ⟨_, he⟩ | ⟨_, _, he⟩ | ⟨_, _, _, _, he⟩ | ⟨_, _, _, _, _, he⟩ |
      ⟨c, hpid, _, _, _, _, he⟩
    · rw [he] at hok; exact absurd hok (by simp)
    · rw [he] at hok; exact absurd hok (by simp)
    · rw [he] at hok; exact absurd hok (by simp)
    · rw [he] at hok; exact absurd hok (by simp)
    · rw [he] at hok
      have hs' : s' = voteState s sender pollId c := by
        injection hok with h; exact h.symm
      subst hs'
      rcases vote_cases (voteState s sender pollId c) now2 sender pollId dec2 with
        ⟨h1, he2⟩ | ⟨_, _, he2⟩ | ⟨_, _, _, _, he2⟩ | ⟨_, _, _, _, _, he2⟩ |
        ⟨c2, _, _, _, hv2, _, _⟩
      · exact ⟨_, he2⟩
      · exact ⟨_, he2⟩
      · exact ⟨_, he2⟩
      · exact ⟨_, he2⟩
      · have : (voteState s sender pollId c).hasVoted pollId sender = true := by
          unfold voteState
          exact if_pos ⟨rfl, rfl⟩
        rw [this] at hv2
        exact absurd hv2 (by simp)
  · intro hpid hstart hend hnv
    constructor
    · intro c hdec
      subst hdec
      exact ⟨voteState s sender pollId c,
        vote_ok_intro s now sender pollId c hpid hstart hend hnv⟩
    · intro hdec
      subst hdec
      rw [vote.eq_def, if_neg (by omega),
        if_neg (not_or.mpr ⟨not_lt.mpr hstart, not_le.mpr hend⟩),
        if_neg (by simp [hnv])]

/-- Witness for `vote_guards_spec` at concrete inputs. -/
theorem vote_guards_spec_witness :
    ∃ s2, vote exState 10 7 0 (some 0) = .ok s2 :=
  ((vote_guards_spec exState 10 7 0 (some 0)).2.2.2.2
    (by decide) (by decide) (by decide) rfl).1 0 rfl

/-- The state produced by a successful `finalizePoll` call. -/
def finalizedState (s : ContractState) (pollId : Nat) : ContractState :=
  { s with
      polls := fun j =>
        if j = pollId then
          { s.polls pollId with
              tallies := (s.polls pollId).tallies.map FHE.makePubliclyDecryptable
              finalized := true }
        else s.polls j
      events := s.events ++ [.PollFinalized pollId] }

lemma finalizePoll_ok_intro (s : ContractState) (now pollId : Nat)
    (hpid : pollId < s.pollCount)
    (hend : (s.polls pollId).endTime ≤ now)
    (hfin : (s.polls pollId).finalized = false) :
    finalizePoll s now pollId = .ok (finalizedState s pollId) := by
  rw [finalizePoll, if_neg (by omega), if_neg (by omega), if_neg (by simp [hfin])]
  rfl

/-- C4: `finalizePoll` rejects with `PollNotFound` iff the poll id is beyond
`totalPolls`; otherwise with `PollStillActive` iff the call happens before
`endTime`; otherwise with `PollAlreadyFinalized` iff the poll is already
finalized; a call passing all guards succeeds, marks every tally handle
publicly decryptable while keeping its underlying value, sets
`finalized := true`, and leaves every other poll field, the participation
set, all other polls and the poll count unchanged. -/
theorem finalizePoll_spec (s : ContractState) (now pollId : Nat) :
    (finalizePoll s now pollId = .error (.PollNotFound pollId) ↔
      s.pollCount ≤ pollId) ∧
    (pollId < s.pollCount →
      (finalizePoll s now pollId = .error (.PollStillActive pollId) ↔
        now < (s.polls pollId).endTime)) ∧
    (pollId < s.pollCount → (s.polls pollId).endTime ≤ now →
      (finalizePoll s now pollId = .error (.PollAlreadyFinalized pollId) ↔
        (s.polls pollId).finalized = true)) ∧
    (pollId < s.pollCount → (s.polls pollId).endTime ≤ now →
      (s.polls pollId).finalized = false →
      ∃ s', finalizePoll s now pollId = .ok s' ∧
        (∀ t, t ∈ (s'.polls pollId).tallies → t.pubDecryptable = true) ∧
        (s'.polls pollId).tallies.map Ciph.val =
          (s.polls pollId).tallies.map Ciph.val ∧
        (s'.polls pollId).finalized = true ∧
        (s'.polls pollId).name = (s.polls pollId).name ∧
        (s'.polls pollId).options = (s.polls pollId).options ∧
        (s'.polls pollId).startTime = (s.polls pollId).startTime ∧
        (s'.polls pollId).endTime = (s.polls pollId).endTime ∧
        (s'.polls pollId).resultsPublished = (s.polls pollId).resultsPublished ∧
        (s'.polls pollId).clearResults = (s.polls pollId).clearResults ∧
        (∀ j, j ≠ pollId → s'.polls j = s.polls j) ∧
        s'.hasVoted = s.hasVoted ∧
        totalPolls s' = totalPolls s) := by
  have hself : (finalizedState s pollId).polls pollId =
      { s.polls pollId with
          tallies := (s.polls pollId).tallies.map FHE.makePubliclyDecryptable
          finalized := true } := by
    unfold finalizedState
    exact if_pos rfl
  refine ⟨?_, ?_, ?_, ?_⟩
  · constructor
    · intro h
      by_contra h1
      by_cases h2 : now < (s.polls pollId).endTime
      · rw [finalizePoll, if_neg h1, if_pos h2] at h
        exact absurd h (by simp)
      · by_cases h3 : (s.polls pollId).finalized
        · rw [finalizePoll, if_neg h1, if_neg h2, if_pos h3] at h
          exact absurd h (by simp)
        · rw [finalizePoll, if_neg h1, if_neg h2, if_neg h3] at h
          exact absurd h (by simp)
    · intro h
      rw [finalizePoll, if_pos h]
  · intro hpid
    constructor
    · intro h
      by_contra h2
      by_cases h3 : (s.polls pollId).finalized
      · rw [finalizePoll, if_neg (by omega), if_neg h2, if_pos h3] at h
        exact absurd h (by simp)
      · rw [finalizePoll, if_neg (by omega), if_neg h2, if_neg h3] at h
        exact absurd h (by simp)
    · intro h
      rw [finalizePoll, if_neg (by omega), if_pos h]
  · intro hpid hend
    constructor
    · intro h
      by_contra h3
      rw [finalizePoll, if_neg (by omega), if_neg (by omega),
        if_neg (by simpa using h3)] at h
      exact absurd h (by simp)
    · intro h
      rw [finalizePoll, if_neg (by omega), if_neg (by omega), if_pos (by simp [h])]
  · intro hpid hend hfin
    refine ⟨finalizedState s pollId,
      finalizePoll_ok_intro s now pollId hpid hend hfin, ?_, ?_, ?_, ?_, ?_, ?_,
      ?_, ?_, ?_, ?_, rfl, rfl⟩
    · rw [hself]
      intro t ht
      simp only [List.mem_map] at ht
      obtain ⟨u, _, rfl⟩ := ht
      rfl
    · rw [hself]
      simp [List.map_map, FHE.makePubliclyDecryptable, Function.comp]
    · rw [hself]
    · rw [hself]
    · rw [hself]
    · rw [hself]
    · rw [hself]
    · rw [hself]
    · rw [hself]
    · intro j hj
      unfold finalizedState
      exact if_neg hj

/-- Witness for `finalizePoll_spec` at a concrete input. -/
theorem finalizePoll_spec_witness :
    ∃ s', finalizePoll exState 70 0 = .ok s' ∧
      (∀ t, t ∈ (s'.polls 0).tallies → t.pubDecryptable = true) ∧
      (s'.polls 0).tallies.map Ciph.val = (exState.polls 0).tallies.map Ciph.val ∧
      (s'.polls 0).finalized = true ∧
      (s'.polls 0).name = (exState.polls 0).name ∧
      (s'.polls 0).options = (exState.polls 0).options ∧
      (s'.polls 0).startTime = (exState.polls 0).startTime ∧
      (s'.polls 0).endTime = (exState.polls 0).endTime ∧
      (s'.polls 0).resultsPublished = (exState.polls 0).resultsPublished ∧
      (s'.polls 0).clearResults = (exState.polls 0).clearResults ∧
      (∀ j, j ≠ 0 → s'.polls j = exState.polls j) ∧
      s'.hasVoted = exState.hasVoted ∧
      totalPolls s' = totalPolls exState :=
  (finalizePoll_spec exState 70 0).2.2.2 (by decide) (by decide) (by decide)

/-- The state produced by a successful `publishResults` call. -/
def publishedState (s : ContractState) (pollId : Nat) (cr : List Nat) :
    ContractState :=
  { s with
      polls := fun j =>
        if j = pollId then
          { s.polls pollId with
              clearResults := cr
              resultsPublished := true }
        else s.polls j
      events := s.events ++ [.ResultsPublished pollId cr] }

lemma publishResults_ok_intro (s : ContractState) (chainid pollId : Nat)
    (cr decryptionProof : List Nat)
    (checkSig : List Ciph → List Nat → List Nat → Bool)
    (hpid : pollId < s.pollCount)
    (hfin : (s.polls pollId).finalized = true)
    (hpub : (s.polls pollId).resultsPublished = false)
    (hcrlen : cr.length = (s.polls pollId).tallies.length)
    (hver : (!(chainid == 31337 && decryptionProof.length == 0) &&
        !(checkSig (s.polls pollId).tallies cr decryptionProof)) = false) :
    publishResults s chainid pollId cr decryptionProof checkSig =
      .ok (publishedState s pollId cr) := by
  rw [publishResults, if_neg (by omega), if_neg (by simp [hfin]),
    if_neg (by simp [hpub]), if_neg (by omega),
    if_neg (by rw [hver]; exact Bool.false_ne_true)]
  rfl

/-- C5: the guards of `publishResults`, in source order: `PollNotFound` when
the poll id is beyond `totalPolls`, `PollNotFinalized` when the poll is not
finalized, `PollAlreadyPublished` when results are already published,
`InvalidOptionCount` when the submitted vector's length differs from the
number of options; the external signature check is skipped exactly when the
chain is the local test network 31337 and the proof is empty (then the call
succeeds regardless of the capability's verdict), and otherwise it is
invoked on the poll's tally handles: the call rejects when it rejects and
succeeds when it accepts; on success the submitted `clearResults` are stored
and `resultsPublished` is set. `hlen` is the `options`/`tallies` alignment
invariant, which holds in every reachable state. -/
theorem publishResults_spec (s : ContractState) (chainid pollId : Nat)
    (cr decryptionProof : List Nat)
    (checkSig : List Ciph → List Nat → List Nat → Bool)
    (hlen : (s.polls pollId).options.length = (s.polls pollId).tallies.length) :
    (s.pollCount ≤ pollId →
      publishResults s chainid pollId cr decryptionProof checkSig =
        .error (.PollNotFound pollId)) ∧
    (pollId < s.pollCount → (s.polls pollId).finalized = false →
      publishResults s chainid pollId cr decryptionProof checkSig =
        .error (.PollNotFinalized pollId)) ∧
    (pollId < s.pollCount → (s.polls pollId).finalized = true →
      (s.polls pollId).resultsPublished = true →
      publishResults s chainid pollId cr decryptionProof checkSig =
        .error (.PollAlreadyPublished pollId)) ∧
    (pollId < s.pollCount → (s.polls pollId).finalized = true →
      (s.polls pollId).resultsPublished = false →
      cr.length ≠ (s.polls pollId).options.length →
      publishResults s chainid pollId cr decryptionProof checkSig =
        .error .InvalidOptionCount) ∧
    (pollId < s.pollCount → (s.polls pollId).finalized = true →
      (s.polls pollId).resultsPublished = false →
      cr.length = (s.polls pollId).options.length →
      ((chainid = 31337 ∧ decryptionProof = []) →
        ∃ s', publishResults s chainid pollId cr decryptionProof checkSig =
            .ok s' ∧
          (s'.polls pollId).clearResults = cr ∧
          (s'.polls pollId).resultsPublished = true) ∧
      (¬(chainid = 31337 ∧ decryptionProof = []) →
        (checkSig (s.polls pollId).tallies cr decryptionProof = false →
          publishResults s chainid pollId cr decryptionProof checkSig =
            .error .ExternalRevert) ∧
        (checkSig (s.polls pollId).tallies cr decryptionProof = true →
          ∃ s', publishResults s chainid pollId cr decryptionProof checkSig =
              .ok s' ∧
            (s'.polls pollId).clearResults = cr ∧
            (s'.polls pollId).resultsPublished = true))) := by
  have hself : ∀ cr2 : List Nat, (publishedState s pollId cr2).polls pollId =
      { s.polls pollId with
          clearResults := cr2
          resultsPublished := true } := by
    intro cr2
    unfold publishedState
    exact if_pos rfl
  refine ⟨?_, ?_, ?_, ?_, ?_⟩
  · intro h
    rw [publishResults, if_pos h]
  · intro hpid hfin
    rw [publishResults, if_neg (by omega), if_pos hfin]
  · intro hpid hfin hpub
    rw [publishResults, if_neg (by omega), if_neg (by simp [hfin]), if_pos hpub]
  · intro hpid hfin hpub hne
    rw [publishResults, if_neg (by omega), if_neg (by simp [hfin]),
      if_neg (by simp [hpub]), if_pos (by omega)]
  · intro hpid hfin hpub hcr
    constructor
    · intro hbypass
      refine ⟨publishedState s pollId cr,
        publishResults_ok_intro s chainid pollId cr decryptionProof checkSig
          hpid hfin hpub (by omega) ?_, by rw [hself], by rw [hself]⟩
      obtain ⟨hcid, hproof⟩ := hbypass
      subst hcid
      subst hproof
      simp
    · intro hnb
      have hcond : (chainid == 31337 && decryptionProof.length == 0) = false := by
        by_cases hcid : chainid = 31337
        · have hproof : decryptionProof ≠ [] := fun hp => hnb ⟨hcid, hp⟩
          have : decryptionProof.length ≠ 0 := by
            simpa [List.length_eq_zero] using hproof
          simp [this]
        · simp [hcid]
      constructor
      · intro hsig
        rw [publishResults, if_neg (by omega), if_neg (by simp [hfin]),
          if_neg (by simp [hpub]), if_neg (by omega),
          if_pos (by simp [hcond, hsig])]
      · intro hsig
        refine ⟨publishedState s pollId cr,
          publishResults_ok_intro s chainid pollId cr decryptionProof checkSig
            hpid hfin hpub (by omega) (by simp [hsig]),
          by rw [hself], by rw [hself]⟩

/-- A concrete state whose poll 0 is `exPoll` already finalized. -/
def exFinalState : ContractState :=
  { pollCount := 1
    polls := fun j => if j = 0 then { exPoll with finalized := true } else Poll.empty
    hasVoted := fun _ _ => false
    events := [] }

/-- Witness for `publishResults_spec` at a concrete input: on chain 31337
with an empty proof the call succeeds even though the signature capability
would reject everything. -/
theorem publishResults_spec_witness :
    ∃ s', publishResults exFinalState 31337 0 [1, 1] [] (fun _ _ _ => false) =
        .ok s' ∧
      (s'.polls 0).clearResults = [1, 1] ∧
      (s'.polls 0).resultsPublished = true :=
  ((publishResults_spec exFinalState 31337 0 [1, 1] [] (fun _ _ _ => false)
      (by decide)).2.2.2.2
    (by decide) (by decide) (by decide) (by decide)).1 ⟨rfl, rfl⟩

/-- Counterexample to C6 as stated: `createPoll` accepts a call whose second
option is the empty string and stores it unchanged, so a successfully
created poll can hold an empty option string. -/
theorem options_nonempty_counterexample :
    createPoll initState 0 "p" ["", "x"] 1 2 =
      .ok (createdState initState "p" ["", "x"] 1 2, 0) ∧
    ((createdState initState "p" ["", "x"] 1 2).polls 0).options = ["", "x"] :=
  ⟨rfl, rfl⟩

/-- C6 (amended): `createPoll` never inspects the option strings themselves:
any call passing the name, option-count and schedule guards succeeds and
stores the options exactly as given, even when some of them are empty. -/
theorem createPoll_ignores_option_contents (s : ContractState) (now : Nat)
    (name : String) (options : List String) (startTime endTime : Nat)
    (hslot : s.polls s.pollCount = Poll.empty)
    (hname : name ≠ "")
    (h2 : 2 ≤ options.length) (h4 : options.length ≤ 4)
    (hsched : startTime < endTime) (hfut : now < endTime) :
    ∃ s', createPoll s now name options startTime endTime =
        .ok (s', s.pollCount) ∧
      (s'.polls s.pollCount).options = options := by
  refine ⟨createdState s name options startTime endTime,
    createPoll_ok_intro s now name options startTime endTime hname h2 h4
      hsched hfut, ?_⟩
  have hself : (createdState s name options startTime endTime).polls s.pollCount =
      { s.polls s.pollCount with
          name := name
          startTime := startTime
          endTime := endTime
          options := (s.polls s.pollCount).options ++ options
          tallies := (s.polls s.pollCount).tallies ++
            options.map (fun _ => FHE.asEuint32 0) } := by
    unfold createdState
    exact if_pos rfl
  rw [hself, hslot]
  simp [Poll.empty]

/-- Witness for `createPoll_ignores_option_contents`, instantiated with an
empty option string. -/
theorem createPoll_ignores_option_contents_witness :
    ∃ s', createPoll initState 3 "p" ["", "x"] 4 9 = .ok (s', 0) ∧
      (s'.polls 0).options = ["", "x"] :=
  createPoll_ignores_option_contents initState 3 "p" ["", "x"] 4 9 rfl
    (by decide) (by decide) (by decide) (by decide) (by decide)

lemma createPoll_ok_elim (s : ContractState) (now : Nat) (name : String)
    (options : List String) (startTime endTime : Nat)
    (r : ContractState × Nat)
    (hok : createPoll s now name options startTime endTime = .ok r) :
    name ≠ "" ∧ 2 ≤ options.length ∧ options.length ≤ 4 ∧
    startTime < endTime ∧ now < endTime ∧
    r = (createdState s name options startTime endTime, s.pollCount) := by
  by_cases h1 : name = ""
  · rw [createPoll, if_pos h1] at hok
    exact absurd hok (by simp)
  · by_cases h2 : options.length < 2 ∨ 4 < options.length
    · rw [createPoll, if_neg h1, if_pos h2] at hok
      exact absurd hok (by simp)
    · by_cases h3 : endTime ≤ startTime ∨ endTime ≤ now
      · rw [createPoll, if_neg h1, if_neg h2, if_pos h3] at hok
        exact absurd hok (by simp)
      · rw [not_or] at h2 h3
        refine ⟨h1, by omega, by omega, by omega, by omega, ?_⟩
        rw [createPoll, if_neg h1,
          if_neg (by rw [not_or]; constructor <;> omega),
          if_neg (by rw [not_or]; constructor <;> omega)] at hok
        have h5 : Except.ok (ε := Err)
            (createdState s name options startTime endTime, s.pollCount) =
            .ok r := hok
        injection h5 with h5
        exact h5.symm

lemma finalizePoll_ok_elim (s s' : ContractState) (now pollId : Nat)
    (hok : finalizePoll s now pollId = .ok s') :
    pollId < s.pollCount ∧ (s.polls pollId).endTime ≤ now ∧
    (s.polls pollId).finalized = false ∧
    s' = finalizedState s pollId := by
  by_cases h1 : s.pollCount ≤ pollId
  · rw [finalizePoll, if_pos h1] at hok
    exact absurd hok (by simp)
  · by_cases h2 : now < (s.polls pollId).endTime
    · rw [finalizePoll, if_neg h1, if_pos h2] at hok
      exact absurd hok (by simp)
    · by_cases h3 : (s.polls pollId).finalized
      · rw [finalizePoll, if_neg h1, if_neg h2, if_pos h3] at hok
        exact absurd hok (by simp)
      · rw [finalizePoll, if_neg h1, if_neg h2, if_neg h3] at hok
        refine ⟨by omega, by omega, by simpa using h3, ?_⟩
        have h5 : Except.ok (ε := Err) (finalizedState s pollId) = .ok s' := hok
        injection h5 with h5
        exact h5.symm

lemma publishResults_ok_elim (s s' : ContractState) (chainid pollId : Nat)
    (cr decryptionProof : List Nat)
    (checkSig : List Ciph → List Nat → List Nat → Bool)
    (hok : publishResults s chainid pollId cr decryptionProof checkSig = .ok s') :
    pollId < s.pollCount ∧ (s.polls pollId).finalized = true ∧
    (s.polls pollId).resultsPublished = false ∧
    cr.length = (s.polls pollId).tallies.length ∧
    s' = publishedState s pollId cr := by
  by_cases h1 : s.pollCount ≤ pollId
  · rw [publishResults, if_pos h1] at hok
    exact absurd hok (by simp)
  · by_cases h2 : (s.polls pollId).finalized = false
    · rw [publishResults, if_neg h1, if_pos h2] at hok
      exact absurd hok (by simp)
    · by_cases h3 : (s.polls pollId).resultsPublished
      · rw [publishResults, if_neg h1, if_neg h2, if_pos h3] at hok
        exact absurd hok (by simp)
      · by_cases h4 : cr.length ≠ (s.polls pollId).tallies.length
        · rw [publishResults, if_neg h1, if_neg h2, if_neg h3, if_pos h4] at hok
          exact absurd hok (by simp)
        · by_cases h5 : (!(chainid == 31337 && decryptionProof.length == 0) &&
              !(checkSig (s.polls pollId).tallies cr decryptionProof)) = true
          · rw [publishResults, if_neg h1, if_neg h2, if_neg h3, if_neg h4,
              if_pos h5] at hok
            exact absurd hok (by simp)
          · rw [publishResults, if_neg h1, if_neg h2, if_neg h3, if_neg h4,
              if_neg h5] at hok
            refine ⟨by omega, by simpa using h2, by simpa using h3,
              by omega, ?_⟩
            have h6 : Except.ok (ε := Err) (publishedState s pollId cr) =
                .ok s' := hok
            injection h6 with h6
            exact h6.symm

/-- Structural invariant of a single poll record. -/
def PollWF (p : Poll) : Prop :=
  p.options.length = p.tallies.length ∧
  (p.resultsPublished = true → p.finalized = true) ∧
  (p.resultsPublished = false → p.clearResults = []) ∧
  (p.resultsPublished = true → p.clearResults.length = p.options.length)

/-- Structural invariant of the registry: untouched slots are all-zero and
every poll record is well formed. -/
def StateWF (s : ContractState) : Prop :=
  (∀ pid, s.pollCount ≤ pid → s.polls pid = Poll.empty) ∧
  (∀ pid, PollWF (s.polls pid))

lemma pollWF_empty : PollWF Poll.empty := by
  refine ⟨rfl, ?_, fun _ => rfl, ?_⟩ <;> intro h <;> exact absurd h (by simp [Poll.empty])

lemma stateWF_init : StateWF initState :=
  ⟨fun _ _ => rfl, fun _ => pollWF_empty⟩

lemma step_of_apply_ok (s s2 : ContractState) (op : Op)
    (h : applyOp s op = .ok s2) : step s op = s2 := by
  unfold step
  rw [h]

lemma step_of_apply_error (s : ContractState) (op : Op) (e : Err)
    (h : applyOp s op = .error e) : step s op = s := by
  unfold step
  rw [h]

lemma applyOp_create_ok (s s2 : ContractState) (now : Nat) (name : String)
    (options : List String) (startTime endTime : Nat)
    (hap : applyOp s (.create now name options startTime endTime) = .ok s2) :
    s2 = createdState s name options startTime endTime := by
  simp only [applyOp] at hap
  cases hc : createPoll s now name options startTime endTime with
  | error e =>
      rw [hc] at hap
      exact absurd hap (by simp [Except.map])
  | ok r =>
      obtain ⟨_, _, _, _, _, hr⟩ :=
        createPoll_ok_elim s now name options startTime endTime r hc
      rw [hc] at hap
      subst hr
      simp only [Except.map, Except.ok.injEq] at hap
      exact hap.symm

lemma createdState_polls_self (s : ContractState) (name : String)
    (options : List String) (startTime endTime : Nat) :
    (createdState s name options startTime endTime).polls s.pollCount =
      { s.polls s.pollCount with
          name := name
          startTime := startTime
          endTime := endTime
          options := (s.polls s.pollCount).options ++ options
          tallies := (s.polls s.pollCount).tallies ++
            options.map (fun _ => FHE.asEuint32 0) } := by
  unfold createdState
  exact if_pos rfl

lemma createdState_polls_other (s : ContractState) (name : String)
    (options : List String) (startTime endTime j : Nat) (hj : j ≠ s.pollCount) :
    (createdState s name options startTime endTime).polls j = s.polls j := by
  unfold createdState
  exact if_neg hj

lemma finalizedState_polls_self (s : ContractState) (pollId : Nat) :
    (finalizedState s pollId).polls pollId =
      { s.polls pollId with
          tallies := (s.polls pollId).tallies.map FHE.makePubliclyDecryptable
          finalized := true } := by
  unfold finalizedState
  exact if_pos rfl

lemma finalizedState_polls_other (s : ContractState) (pollId j : Nat)
    (hj : j ≠ pollId) :
    (finalizedState s pollId).polls j = s.polls j := by
  unfold finalizedState
  exact if_neg hj

lemma publishedState_polls_self (s : ContractState) (pollId : Nat)
    (cr : List Nat) :
    (publishedState s pollId cr).polls pollId =
      { s.polls pollId with
          clearResults := cr
          resultsPublished := true } := by
  unfold publishedState
  exact if_pos rfl

lemma publishedState_polls_other (s : ContractState) (pollId j : Nat)
    (cr : List Nat) (hj : j ≠ pollId) :
    (publishedState s pollId cr).polls j = s.polls j := by
  unfold publishedState
  exact if_neg hj

lemma stateWF_created (s : ContractState) (name : String) (options : List String)
    (startTime endTime : Nat) (h : StateWF s) :
    StateWF (createdState s name options startTime endTime) := by
  obtain ⟨hdef, hwf⟩ := h
  have hpc : (createdState s name options startTime endTime).pollCount =
      s.pollCount + 1 := rfl
  constructor
  · intro pid hpid
    rw [hpc] at hpid
    rw [createdState_polls_other s name options startTime endTime pid (by omega)]
    exact hdef pid (by omega)
  · intro pid
    by_cases hpe : pid = s.pollCount
    · subst hpe
      rw [createdState_polls_self, hdef s.pollCount (le_refl s.pollCount)]
      refine ⟨by simp [Poll.empty], ?_, fun _ => rfl, ?_⟩ <;> intro hb <;>
        exact absurd hb (by simp [Poll.empty])
    · rw [createdState_polls_other s name options startTime endTime pid hpe]
      exact hwf pid

lemma stateWF_voted (s : ContractState) (sender pollId c : Nat)
    (hpid : pollId < s.pollCount) (h : StateWF s) :
    StateWF (voteState s sender pollId c) := by
  obtain ⟨hdef, hwf⟩ := h
  have hpc : (voteState s sender pollId c).pollCount = s.pollCount := rfl
  constructor
  · intro pid hpid2
    rw [hpc] at hpid2
    rw [voteState_polls_other s sender pollId c pid (by omega)]
    exact hdef pid hpid2
  · intro pid
    by_cases hpe : pid = pollId
    · subst hpe
      rw [voteState_polls_self]
      obtain ⟨w1, w2, w3, w4⟩ := hwf pid
      exact ⟨by simpa [bumpTallies_length] using w1, w2, w3, w4⟩
    · rw [voteState_polls_other s sender pollId c pid hpe]
      exact hwf pid

lemma stateWF_finalized (s : ContractState) (pollId : Nat)
    (hpid : pollId < s.pollCount) (h : StateWF s) :
    StateWF (finalizedState s pollId) := by
  obtain ⟨hdef, hwf⟩ := h
  have hpc : (finalizedState s pollId).pollCount = s.pollCount := rfl
  constructor
  · intro pid hpid2
    rw [hpc] at hpid2
    rw [finalizedState_polls_other s pollId pid (by omega)]
    exact hdef pid hpid2
  · intro pid
    by_cases hpe : pid = pollId
    · subst hpe
      rw [finalizedState_polls_self]
      obtain ⟨w1, w2, w3, w4⟩ := hwf pid
      exact ⟨by simpa using w1, fun _ => rfl, w3, w4⟩
    · rw [finalizedState_polls_other s pollId pid hpe]
      exact hwf pid

lemma stateWF_published (s : ContractState) (pollId : Nat) (cr : List Nat)
    (hpid : pollId < s.pollCount)
    (hfin : (s.polls pollId).finalized = true)
    (hcrlen : cr.length = (s.polls pollId).tallies.length)
    (h : StateWF s) :
    StateWF (publishedState s pollId cr) := by
  obtain ⟨hdef, hwf⟩ := h
  have hpc : (publishedState s pollId cr).pollCount = s.pollCount := rfl
  constructor
  · intro pid hpid2
    rw [hpc] at hpid2
    rw [publishedState_polls_other s pollId pid cr (by omega)]
    exact hdef pid hpid2
  · intro pid
    by_cases hpe : pid = pollId
    · subst hpe
      rw [publishedState_polls_self]
      obtain ⟨w1, w2, w3, w4⟩ := hwf pid
      exact ⟨w1, fun _ => hfin, fun hb => absurd hb (by simp),
        fun _ => by simpa [hcrlen] using w1.symm⟩
    · rw [publishedState_polls_other s pollId pid cr hpe]
      exact hwf pid

lemma vote_ok_any_elim (s s2 : ContractState) (now sender pollId : Nat)
    (dec : Option Nat) (hv : vote s now sender pollId dec = .ok s2) :
    ∃ c, dec = some c ∧ pollId < s.pollCount ∧
      s2 = voteState s sender pollId c := by
  rcases vote_cases s now sender pollId dec with
    ⟨_, he⟩ | ⟨_, _, he⟩ | ⟨_, _, _, _, he⟩ | ⟨_, _, _, _, _, he⟩ |
    ⟨c, hpid, _, _, _, hdec, he⟩
  · rw [he] at hv; exact absurd hv (by simp)
  · rw [he] at hv; exact absurd hv (by simp)
  · rw [he] at hv; exact absurd hv (by simp)
  · rw [he] at hv; exact absurd hv (by simp)
  · rw [he] at hv
    refine ⟨c, hdec, hpid, ?_⟩
    injection hv with h6
    exact h6.symm

lemma stateWF_step (s : ContractState) (op : Op) (h : StateWF s) :
    StateWF (step s op) := by
  cases hap : applyOp s op with
  | error e =>
      rw [step_of_apply_error s op e hap]
      exact h
  | ok s2 =>
      rw [step_of_apply_ok s s2 op hap]
      cases op with
      | create now name options startTime endTime =>
          rw [applyOp_create_ok s s2 now name options startTime endTime hap]
          exact stateWF_created s name options startTime endTime h
      | vote now sender pollId dec =>
          obtain ⟨c, _, hpid, hs2⟩ :=
            vote_ok_any_elim s s2 now sender pollId dec hap
          rw [hs2]
          exact stateWF_voted s sender pollId c hpid h
      | finalize now pollId =>
          obtain ⟨hpid, _, _, hs2⟩ := finalizePoll_ok_elim s s2 now pollId hap
          rw [hs2]
          exact stateWF_finalized s pollId hpid h
      | publish chainid pollId cr decryptionProof checkSig =>
          obtain ⟨hpid, hfin, _, hcrlen, hs2⟩ :=
            publishResults_ok_elim s s2 chainid pollId cr decryptionProof
              checkSig hap
          rw [hs2]
          exact stateWF_published s pollId cr hpid hfin hcrlen h

lemma stateWF_foldl (ops : List Op) :
    ∀ s, StateWF s → StateWF (ops.foldl step s) := by
  induction ops with
  | nil => intro s h; exact h
  | cons op ops ih => intro s h; exact ih (step s op) (stateWF_step s op h)

lemma stateWF_exec (ops : List Op) : StateWF (execList ops) :=
  stateWF_foldl ops initState stateWF_init

lemma voteState_hasVoted (s : ContractState) (sender pollId c p a : Nat) :
    (voteState s sender pollId c).hasVoted p a =
      if p = pollId ∧ a = sender then true else s.hasVoted p a := rfl

lemma clearResults_stable (s : ContractState) (op : Op) (pid : Nat)
    (hpub : (s.polls pid).resultsPublished = true) :
    ((step s op).polls pid).clearResults = (s.polls pid).clearResults := by
  cases hap : applyOp s op with
  | error e => rw [step_of_apply_error s op e hap]
  | ok s2 =>
      rw [step_of_apply_ok s s2 op hap]
      cases op with
      | create now name options startTime endTime =>
          rw [applyOp_create_ok s s2 now name options startTime endTime hap]
          by_cases hpe : pid = s.pollCount
          · subst hpe
            rw [createdState_polls_self]
          · rw [createdState_polls_other s name options startTime endTime pid hpe]
      | vote now sender pollId dec =>
          obtain ⟨c, _, _, hs2⟩ := vote_ok_any_elim s s2 now sender pollId dec hap
          rw [hs2]
          by_cases hpe : pid = pollId
          · subst hpe
            rw [voteState_polls_self]
          · rw [voteState_polls_other s sender pollId c pid hpe]
      | finalize now pollId =>
          obtain ⟨_, _, _, hs2⟩ := finalizePoll_ok_elim s s2 now pollId hap
          rw [hs2]
          by_cases hpe : pid = pollId
          · subst hpe
            rw [finalizedState_polls_self]
          · rw [finalizedState_polls_other s pollId pid hpe]
      | publish chainid pollId cr decryptionProof checkSig =>
          obtain ⟨_, _, hpub2, _, hs2⟩ :=
            publishResults_ok_elim s s2 chainid pollId cr decryptionProof
              checkSig hap
          rw [hs2]
          by_cases hpe : pid = pollId
          · subst hpe
            rw [hpub] at hpub2
            exact absurd hpub2 (by simp)
          · rw [publishedState_polls_other s pollId pid cr hpe]

/-- C7: in every reachable state, every created poll has as many tallies as
options; `resultsPublished` implies `finalized`; while unpublished,
`clearResults` is empty and `getPublicResults` returns the empty sequence;
once published, `clearResults` has exactly one entry per option and no
further operation ever changes it. -/
theorem poll_invariants_spec (ops : List Op) (pid : Nat)
    (hpid : pid < (execList ops).pollCount) :
    ((execList ops).polls pid).options.length =
      ((execList ops).polls pid).tallies.length ∧
    (((execList ops).polls pid).resultsPublished = true →
      ((execList ops).polls pid).finalized = true) ∧
    (((execList ops).polls pid).resultsPublished = false →
      ((execList ops).polls pid).clearResults = [] ∧
      getPublicResults (execList ops) pid = .ok []) ∧
    (((execList ops).polls pid).resultsPublished = true →
      ((execList ops).polls pid).clearResults.length =
        ((execList ops).polls pid).options.length) ∧
    (((execList ops).polls pid).resultsPublished = true →
      ∀ op, ((step (execList ops) op).polls pid).clearResults =
        ((execList ops).polls pid).clearResults) := by
  obtain ⟨hdef, hwf⟩ := stateWF_exec ops
  obtain ⟨w1, w2, w3, w4⟩ := hwf pid
  refine ⟨w1, w2, ?_, w4,
    fun hpub op => clearResults_stable (execList ops) op pid hpub⟩
  intro hnp
  refine ⟨w3 hnp, ?_⟩
  rw [getPublicResults, if_neg (by omega), w3 hnp]

/-- The single-creation history used to instantiate reachable-state
theorems. -/
def exOps : List Op := [Op.create 0 "Weekly poll" ["Alice", "Bob"] 5 65]

/-- Witness for `poll_invariants_spec` on a concrete history. -/
theorem poll_invariants_spec_witness :
    ((execList exOps).polls 0).options.length =
      ((execList exOps).polls 0).tallies.length ∧
    (((execList exOps).polls 0).resultsPublished = true →
      ((execList exOps).polls 0).finalized = true) ∧
    (((execList exOps).polls 0).resultsPublished = false →
      ((execList exOps).polls 0).clearResults = [] ∧
      getPublicResults (execList exOps) 0 = .ok []) ∧
    (((execList exOps).polls 0).resultsPublished = true →
      ((execList exOps).polls 0).clearResults.length =
        ((execList exOps).polls 0).options.length) ∧
    (((execList exOps).polls 0).resultsPublished = true →
      ∀ op, ((step (execList exOps) op).polls 0).clearResults =
        ((execList exOps).polls 0).clearResults) :=
  poll_invariants_spec exOps 0 (by decide)

/-- C8: across any single registry call on any state, `finalized` and
`resultsPublished` never fall back from true to false, the participation set
only grows, and a poll's `finalized` flag can only turn true through a
`finalizePoll` call whose timestamp is at or after that poll's `endTime`. -/
theorem monotonic_flags_spec (s : ContractState) (op : Op) (pid voter : Nat) :
    ((s.polls pid).finalized = true → ((step s op).polls pid).finalized = true) ∧
    ((s.polls pid).resultsPublished = true →
      ((step s op).polls pid).resultsPublished = true) ∧
    (s.hasVoted pid voter = true → (step s op).hasVoted pid voter = true) ∧
    ((s.polls pid).finalized = false →
      ((step s op).polls pid).finalized = true →
      ∃ now, op = Op.finalize now pid ∧ (s.polls pid).endTime ≤ now) := by
  cases hap : applyOp s op with
  | error e =>
      rw [step_of_apply_error s op e hap]
      exact ⟨fun h => h, fun h => h, fun h => h,
        fun hf hf2 => absurd hf2 (by simp [hf])⟩
  | ok s2 =>
      rw [step_of_apply_ok s s2 op hap]
      cases op with
      | create now name options startTime endTime =>
          rw [applyOp_create_ok s s2 now name options startTime endTime hap]
          by_cases hpe : pid = s.pollCount
          · subst hpe
            rw [createdState_polls_self]
            exact ⟨fun h => h, fun h => h, fun h => h,
              fun hf hf2 => absurd hf2 (by simp [hf])⟩
          · rw [createdState_polls_other s name options startTime endTime pid hpe]
            exact ⟨fun h => h, fun h => h, fun h => h,
              fun hf hf2 => absurd hf2 (by simp [hf])⟩
      | vote now sender pollId dec =>
          obtain ⟨c, _, _, hs2⟩ := vote_ok_any_elim s s2 now sender pollId dec hap
          rw [hs2]
          refine ⟨?_, ?_, ?_, ?_⟩
          · intro h
            by_cases hpe : pid = pollId
            · subst hpe
              rw [voteState_polls_self]
              exact h
            · rw [voteState_polls_other s sender pollId c pid hpe]
              exact h
          · intro h
            by_cases hpe : pid = pollId
            · subst hpe
              rw [voteState_polls_self]
              exact h
            · rw [voteState_polls_other s sender pollId c pid hpe]
              exact h
          · intro h
            rw [voteState_hasVoted]
            by_cases hpa : pid = pollId ∧ voter = sender
            · rw [if_pos hpa]
            · rw [if_neg hpa]
              exact h
          · intro hf hf2
            by_cases hpe : pid = pollId
            · subst hpe
              rw [voteState_polls_self] at hf2
              exact absurd hf2 (by simp [hf])
            · rw [voteState_polls_other s sender pollId c pid hpe] at hf2
              exact absurd hf2 (by simp [hf])
      | finalize now pollId =>
          obtain ⟨hpid, hend, hfin0, hs2⟩ := finalizePoll_ok_elim s s2 now pollId hap
          rw [hs2]
          refine ⟨?_, ?_, fun h => h, ?_⟩
          · intro h
            by_cases hpe : pid = pollId
            · subst hpe
              rw [finalizedState_polls_self]
            · rw [finalizedState_polls_other s pollId pid hpe]
              exact h
          · intro h
            by_cases hpe : pid = pollId
            · subst hpe
              rw [finalizedState_polls_self]
              exact h
            · rw [finalizedState_polls_other s pollId pid hpe]
              exact h
          · intro hf hf2
            by_cases hpe : pid = pollId
            · subst hpe
              exact ⟨now, rfl, hend⟩
            · rw [finalizedState_polls_other s pollId pid hpe] at hf2
              exact absurd hf2 (by simp [hf])
      | publish chainid pollId cr decryptionProof checkSig =>
          obtain ⟨_, _, _, _, hs2⟩ :=
            publishResults_ok_elim s s2 chainid pollId cr decryptionProof
              checkSig hap
          rw [hs2]
          refine ⟨?_, ?_, fun h => h, ?_⟩
          · intro h
            by_cases hpe : pid = pollId
            · subst hpe
              rw [publishedState_polls_self]
              exact h
            · rw [publishedState_polls_other s pollId pid cr hpe]
              exact h
          · intro h
            by_cases hpe : pid = pollId
            · subst hpe
              rw [publishedState_polls_self]
            · rw [publishedState_polls_other s pollId pid cr hpe]
              exact h
          · intro hf hf2
            by_cases hpe : pid = pollId
            · subst hpe
              rw [publishedState_polls_self] at hf2
              exact absurd hf2 (by simp [hf])
            · rw [publishedState_polls_other s pollId pid cr hpe] at hf2
              exact absurd hf2 (by simp [hf])

/-- Witness for `monotonic_flags_spec` on a concrete finalization. -/
theorem monotonic_flags_spec_witness :
    ∃ now, Op.finalize 70 0 = Op.finalize now 0 ∧
      (exState.polls 0).endTime ≤ now :=
  (monotonic_flags_spec exState (Op.finalize 70 0) 0 0).2.2.2
    (by decide) (by decide)

/-- C9: transactional semantics — a call that fails any guard or whose
external capability step rejects leaves every component of the registry
state (poll count, every poll record, the participation sets, the event log)
exactly as it was. -/
theorem allOrNothing_spec (s : ContractState) (op : Op) (e : Err)
    (h : applyOp s op = .error e) :
    step s op = s ∧
    totalPolls (step s op) = totalPolls s ∧
    (∀ pid, (step s op).polls pid = s.polls pid) ∧
    (∀ pid voter, (step s op).hasVoted pid voter = s.hasVoted pid voter) ∧
    (step s op).events = s.events := by
  have hs := step_of_apply_error s op e h
  rw [hs]
  exact ⟨rfl, rfl, fun _ => rfl, fun _ _ => rfl, rfl⟩

/-- Witness for `allOrNothing_spec`: a `vote` on a nonexistent poll leaves
the fresh state untouched. -/
theorem allOrNothing_spec_witness :
    step initState (Op.vote 0 0 0 none) = initState ∧
    totalPolls (step initState (Op.vote 0 0 0 none)) = totalPolls initState ∧
    (∀ pid, (step initState (Op.vote 0 0 0 none)).polls pid =
      initState.polls pid) ∧
    (∀ pid voter, (step initState (Op.vote 0 0 0 none)).hasVoted pid voter =
      initState.hasVoted pid voter) ∧
    (step initState (Op.vote 0 0 0 none)).events = initState.events :=
  allOrNothing_spec initState (Op.vote 0 0 0 none) (Err.PollNotFound 0) rfl

end VoteOblivion
